import Mathlib

/-!
Verification of the CADA-VAE training / embedding-generation pipeline.

Shallow embedding of `zeroshoteval/proc/zeroshotnet/cada_vae/cada_vae_train.py`.

Tensors are modelled as lists of rows of real numbers (`List (List ℝ)`); the
per-modality dictionaries are association lists keyed by modality name, whose
lookups return `Option` (a missing key models Python's `KeyError`).  Fallible
computations return `Option`: `none` models an uncaught Python exception.
The warm-up scheduler is modelled over `ℚ` (Python float division is exact
rational arithmetic here), with `none` modelling `ZeroDivisionError`.
-/

namespace CadaVae

/-- A batch tensor: a list of rows, each row a list of real scalars. -/
abbrev Tensor := List (List ℝ)

/-- Elementwise binary operation on two tensors (`torch` elementwise ops,
assuming equal shapes; `zipWith` truncates on mismatch). -/
def tmap2 (f : ℝ → ℝ → ℝ) : Tensor → Tensor → Tensor :=
  List.zipWith (List.zipWith f)

/-- `.sum(dim=1)`: the list of row sums of a tensor. -/
def rowSums (t : Tensor) : List ℝ :=
  t.map List.sum

/-- `.sum()` over all elements of a tensor. -/
noncomputable def tensorSum (t : Tensor) : ℝ :=
  (rowSums t).sum

/-- `.mean()` of a 1-D tensor. -/
noncomputable def tmean (l : List ℝ) : ℝ :=
  l.sum / l.length

/-- Two tensors have the same shape: same row count and same row lengths. -/
def sameShape (t₁ t₂ : Tensor) : Prop :=
  t₁.map List.length = t₂.map List.length

/-- `itertools.combinations(l, 2)` in source order: all pairs `(l[i], l[j])`
with `i < j`. -/
def pairs : List α → List (α × α)
  | [] => []
  | a :: rest => rest.map (fun b => (a, b)) ++ pairs rest

/-- Keys of an association list (Python `dict.keys()`). -/
def keys (d : List (String × α)) : List String :=
  d.map Prod.fst

/-- Total lookup used to *state* theorems about values whose presence is
guaranteed by hypotheses (junk `[]` when absent). -/
def getT (d : List (String × Tensor)) (m : String) : Tensor :=
  (List.lookup m d).getD []

/-- Total lookup of a modality's decoder (junk identity when absent). -/
def getDec (d : List (String × (Tensor → Tensor))) (m : String) : Tensor → Tensor :=
  (List.lookup m d).getD (fun t => t)

/-- Every entry of every row of a tensor is `0`. -/
def allZero (t : Tensor) : Prop :=
  ∀ row ∈ t, ∀ v ∈ row, v = 0

/-! ## `reconstruction_loss` (lines 283-306)

`l1`: `nn.functional.l1_loss(x, x_recon, reduction="sum") / x.shape[0]`;
`l2`: `nn.functional.mse_loss(x, x_recon, reduction="sum") / x.shape[0]`.
Any other selector leaves `loss_recon` unbound, so `return loss_recon`
raises `UnboundLocalError`: modelled as `none`. -/
noncomputable def reconstruction_loss (x x_recon : Tensor)
    (recon_loss_norm : String := "l1") : Option ℝ :=
  if recon_loss_norm = "l1" then
    some (tensorSum (tmap2 (fun a b => |a - b|) x x_recon) / x.length)
  else if recon_loss_norm = "l2" then
    some (tensorSum (tmap2 (fun a b => (a - b) ^ 2) x x_recon) / x.length)
  else
    none

/-- The value `reconstruction_loss` returns on a recognised selector. -/
noncomputable def reconValue (norm : String) (x x_recon : Tensor) : ℝ :=
  if norm = "l1" then tensorSum (tmap2 (fun a b => |a - b|) x x_recon) / x.length
  else tensorSum (tmap2 (fun a b => (a - b) ^ 2) x x_recon) / x.length

/-- Per-modality KL summand of `compute_cada_losses` (lines 186-196):
`0.5 * (1 + z_logvar - z_mu.pow(2) - z_logvar.exp()).sum(dim=1).mean()`. -/
noncomputable def kldTerm (mu logvar : Tensor) : ℝ :=
  0.5 * tmean (rowSums (tmap2 (fun m v => 1 + v - m ^ 2 - Real.exp v) mu logvar))

/-! ## `compute_da_loss` (lines 225-247) -/

noncomputable def compute_da_loss (z_mu_1 z_logvar_1 z_mu_2 z_logvar_2 : Tensor) : ℝ :=
  let loss_mu := rowSums (tmap2 (fun a b => (a - b) ^ 2) z_mu_1 z_mu_2)
  let loss_var :=
    rowSums (tmap2 (fun a b => (Real.exp (a / 2) - Real.exp (b / 2)) ^ 2)
      z_logvar_1 z_logvar_2)
  tmean (List.zipWith (fun u v => Real.sqrt (u + v)) loss_mu loss_var)

/-! ## `compute_ca_loss` (lines 250-280), loss value only

Decoders are abstract functions `Tensor → Tensor`.  The source decodes the
*other* modality's latent sample through each decoder:
`x_recon_1 = decoder_1(z_sample_2)`, `x_recon_2 = decoder_2(z_sample_1)`.
The `decoder.eval()` mode side effect is modelled separately below. -/
noncomputable def compute_ca_loss (decoder_1 decoder_2 : Tensor → Tensor)
    (x_1 x_2 z_sample_1 z_sample_2 : Tensor) (norm : String) : Option ℝ := do
  let r1 ← reconstruction_loss x_1 (decoder_1 z_sample_2) norm
  let r2 ← reconstruction_loss x_2 (decoder_2 z_sample_1) norm
  pure (r1 + r2)

/-! ## `compute_cada_losses` (lines 147-222)

The first loop runs over `z_mu.keys()` and accumulates reconstruction and KL
losses; the second loop runs over `itertools.combinations(z_mu.keys(), 2)` and
accumulates distribution-alignment and cross-alignment losses.  Every `d[m]`
subscript is a fallible lookup (`KeyError` = `none`).  The two loop bodies
are factored into named step functions. -/

/-- One iteration of the first loop of `compute_cada_losses` (lines 181-196):
`loss_recon += reconstruction_loss(x[m], x_recon[m], **kwargs)` and
`loss_kld += 0.5 * (...).sum(dim=1).mean()`. -/
noncomputable def vaeStep (x x_recon z_mu z_logvar : List (String × Tensor))
    (norm : String) (acc : ℝ × ℝ) (m : String) : Option (ℝ × ℝ) := do
  let xm ← List.lookup m x
  let xrm ← List.lookup m x_recon
  let r ← reconstruction_loss xm xrm norm
  let mum ← List.lookup m z_mu
  let lvm ← List.lookup m z_logvar
  pure (acc.1 + r, acc.2 + kldTerm mum lvm)

/-- One iteration of the second loop of `compute_cada_losses` (lines 202-220):
`loss_da += compute_da_loss(...)` and `loss_ca += compute_ca_loss(...)` for
one modality pair. -/
noncomputable def pairStep (decoder : List (String × (Tensor → Tensor)))
    (x z_mu z_logvar z_noize : List (String × Tensor)) (norm : String)
    (acc : ℝ × ℝ) (p : String × String) : Option (ℝ × ℝ) := do
  let mu1 ← List.lookup p.1 z_mu
  let lv1 ← List.lookup p.1 z_logvar
  let mu2 ← List.lookup p.2 z_mu
  let lv2 ← List.lookup p.2 z_logvar
  let d1 ← List.lookup p.1 decoder
  let d2 ← List.lookup p.2 decoder
  let x1 ← List.lookup p.1 x
  let x2 ← List.lookup p.2 x
  let z1 ← List.lookup p.1 z_noize
  let z2 ← List.lookup p.2 z_noize
  let ca ← compute_ca_loss d1 d2 x1 x2 z1 z2 norm
  pure (acc.1 + compute_da_loss mu1 lv1 mu2 lv2, acc.2 + ca)

/-- The value added to `loss_da` for one modality pair, stated with total
lookups. -/
noncomputable def daValue (z_mu z_logvar : List (String × Tensor))
    (p : String × String) : ℝ :=
  compute_da_loss (getT z_mu p.1) (getT z_logvar p.1) (getT z_mu p.2) (getT z_logvar p.2)

/-- The value added to `loss_ca` for one modality pair, stated with total
lookups: both cross-decoded reconstruction losses. -/
noncomputable def caValue (decoder : List (String × (Tensor → Tensor)))
    (x z_noize : List (String × Tensor)) (norm : String)
    (p : String × String) : ℝ :=
  reconValue norm (getT x p.1) (getDec decoder p.1 (getT z_noize p.2))
  + reconValue norm (getT x p.2) (getDec decoder p.2 (getT z_noize p.1))

/-- Returns `(loss_vae, loss_ca, loss_da)` with
`loss_vae = loss_recon - beta * loss_kld` (line 200). -/
noncomputable def compute_cada_losses
    (decoder : List (String × (Tensor → Tensor)))
    (x x_recon z_mu z_logvar z_noize : List (String × Tensor))
    (beta : ℝ) (norm : String) : Option (ℝ × ℝ × ℝ) := do
  let rk ← (keys z_mu).foldlM (vaeStep x x_recon z_mu z_logvar norm) ((0 : ℝ), (0 : ℝ))
  let dc ← (pairs (keys z_mu)).foldlM (pairStep decoder x z_mu z_logvar z_noize norm)
    ((0 : ℝ), (0 : ℝ))
  pure (rk.1 - beta * rk.2, dc.2, dc.1)

/-! ## `loss_factors` (lines 309-362), over exact rationals -/

/-- One warm-up ramp (`warmup.BETA` etc.): `START_EPOCH`, `END_EPOCH`,
`FACTOR`. -/
structure Ramp where
  START_EPOCH : ℤ
  END_EPOCH : ℤ
  FACTOR : ℚ

/-- `cfg.CADA_VAE.WARMUP`: three independent ramps. -/
structure Warmup where
  BETA : Ramp
  CROSS_RECONSTRUCTION : Ramp
  DISTANCE : Ramp

/-- The piecewise rule applied (with identical code) to each of the three
ramps in `loss_factors`.  The interpolation branch divides by
`END_EPOCH - START_EPOCH`; a zero denominator models Python's
`ZeroDivisionError` as `none`. -/
def rampFactor (current_epoch : ℤ) (r : Ramp) : Option ℚ :=
  if current_epoch < r.START_EPOCH then some 0
  else if current_epoch ≥ r.END_EPOCH then some r.FACTOR
  else if r.END_EPOCH - r.START_EPOCH = 0 then none
  else some (((current_epoch - r.START_EPOCH : ℤ) : ℚ)
    / ((r.END_EPOCH - r.START_EPOCH : ℤ) : ℚ) * r.FACTOR)

def loss_factors (current_epoch : ℤ) (warmup : Warmup) : Option (ℚ × ℚ × ℚ) := do
  let beta ← rampFactor current_epoch warmup.BETA
  let cross_reconstruction_factor ← rampFactor current_epoch warmup.CROSS_RECONSTRUCTION
  let distance_factor ← rampFactor current_epoch warmup.DISTANCE
  pure (beta, cross_reconstruction_factor, distance_factor)

/-- The closed-form value of a ramp, as the spec states it
(`target_factor * (e - start) / (end - start)` in the interpolation zone). -/
def rampValue (e : ℤ) (r : Ramp) : ℚ :=
  if e < r.START_EPOCH then 0
  else if r.END_EPOCH ≤ e then r.FACTOR
  else r.FACTOR * (((e - r.START_EPOCH : ℤ) : ℚ)
    / ((r.END_EPOCH - r.START_EPOCH : ℤ) : ℚ))

/-- The properties the spec asserts of one ramp's factor at epochs `e ≤ e'`:
the three piecewise cases, and (for a nonnegative target) the `[0, FACTOR]`
bounds and monotonicity. -/
def rampProps (e e' : ℤ) (r : Ramp) : Prop :=
  (e < r.START_EPOCH → rampValue e r = 0)
  ∧ (r.END_EPOCH ≤ e → rampValue e r = r.FACTOR)
  ∧ (r.START_EPOCH ≤ e → e < r.END_EPOCH →
      rampValue e r = r.FACTOR * (((e - r.START_EPOCH : ℤ) : ℚ)
        / ((r.END_EPOCH - r.START_EPOCH : ℤ) : ℚ)))
  ∧ (0 ≤ r.FACTOR →
      0 ≤ rampValue e r ∧ rampValue e r ≤ r.FACTOR
      ∧ (e ≤ e' → rampValue e r ≤ rampValue e' r))

/-! ## `remap_labels` (lines 445-458)

`remapping_dict = dict(zip(classes, range(len(classes))))` — on duplicate
class ids the *later* index wins, so the lookup runs over the reversed
association list.  `np.vectorize(remapping_dict.get)` maps each label to its
index, or to `None` when the label is not a known class. -/
def remap_labels (labels : List ℤ) (classes : List ℤ) : List (Option ℕ) :=
  let remapping_dict := (classes.zip (List.range classes.length)).reverse
  labels.map (fun l => List.lookup l remapping_dict)

/-! ## `eval_VAE` (lines 111-144)

`model.encoder[test_modality](x)` returns `(z_mu, z_logvar, z_noize)`;
the encoder is abstracted as a function from modality name and batch tensor to
that triple.  A loader is a list of `(batch tensor, label tensor)` pairs;
the loop concatenates `z_noize` rows when `reparametrize_with_noise` and
`z_mu` rows otherwise, and always concatenates the labels. -/
def eval_VAE (encoder : String → Tensor → Tensor × Tensor × Tensor)
    (test_loader : List (Tensor × List ℤ)) (test_modality : String)
    (reparametrize_with_noise : Bool := true) : Tensor × List ℤ :=
  test_loader.foldl (fun acc b =>
    (acc.1 ++ (if reparametrize_with_noise
                then (encoder test_modality b.1).2.2
                else (encoder test_modality b.1).1),
     acc.2 ++ b.2)) ([], [])

/-- Spec-side description: the concatenation of the latent *means* (`z_mu`,
first component of the encoder triple) over a loader's batches. -/
def concatMu (encoder : String → Tensor → Tensor × Tensor × Tensor)
    (modality : String) (batches : List (Tensor × List ℤ)) : Tensor :=
  batches.foldl (fun acc b => acc ++ (encoder modality b.1).1) []

/-- Spec-side description: the concatenation of the reparameterized noisy
samples (`z_noize`, last component of the encoder triple) over a loader's
batches. -/
def concatNoize (encoder : String → Tensor → Tensor × Tensor × Tensor)
    (modality : String) (batches : List (Tensor × List ℤ)) : Tensor :=
  batches.foldl (fun acc b => acc ++ (encoder modality b.1).2.2) []

/-! ## `generate_synthetic_dataset` (lines 365-442)

`GenEmbeddingDataset(cfg, split, modality)` is an external collaborator; each
of the three instances constructed by the source is abstracted as the list of
batches its loader yields plus its `unseen_classes` attribute. -/
structure EmbDataset where
  batches : List (Tensor × List ℤ)
  unseen_classes : List ℤ

/-- Shallow embedding of `generate_synthetic_dataset`.

The local variable `dataset` is bound only inside the `if cfg.GENERALIZED`
branch (line 386); the non-generalized remap step (line 407) reads
`dataset.unseen_classes`, which raises `UnboundLocalError` when the flag is
false — modelled by the `Option`-valued local.  `np.vectorize(...).get`
produces `None` entries for unknown labels, on which `torch.from_numpy`
fails — modelled by sequencing the `Option`s.  The final
`TensorDataset(zsl_emb, labels_tensor)` asserts equal first dimensions.
Returns `(embeddings, labels, csl_train_indice, csl_test_indice)`. -/
def generate_synthetic_dataset (generalized : Bool)
    (encoder : String → Tensor → Tensor × Tensor × Tensor)
    (ds_trainval ds_test_unseen ds_test : EmbDataset) :
    Option (Tensor × List ℤ × List ℕ × List ℕ) := do
  let dataset : Option EmbDataset := if generalized then some ds_trainval else none
  let imgPair :=
    if generalized then eval_VAE encoder ds_trainval.batches "IMG" true
    else ([], [])
  let attrPair := eval_VAE encoder ds_test_unseen.batches "CLS_ATTR" true
  let labels_cls_attr ←
    if generalized then some attrPair.2
    else do
      let d ← dataset
      let remapped ← (remap_labels attrPair.2 d.unseen_classes).mapM id
      some (remapped.map (fun n => (n : ℤ)))
  let testPair := eval_VAE encoder ds_test.batches "IMG" false
  let zsl_emb := imgPair.1 ++ attrPair.1 ++ testPair.1
  let labels_tensor := imgPair.2 ++ labels_cls_attr ++ testPair.2
  let n_train := imgPair.2.length + labels_cls_attr.length
  let csl_train_indice := List.range n_train
  let csl_test_indice := List.range' n_train testPair.2.length
  if zsl_emb.length = labels_tensor.length then
    some (zsl_emb, labels_tensor, csl_train_indice, csl_test_indice)
  else none

/-! ## Training-mode state of the decoder sub-modules

`model.train()` (line 48, once, before the epoch loop) puts every sub-module,
the per-modality decoders included, in training mode; `compute_ca_loss`
(lines 270-271) calls `decoder_1.eval()` and `decoder_2.eval()` and nothing
ever calls `.train()` again.  The mode state is a map from modality name to
the training flag of that modality's decoder. -/
def DecoderModes := String → Bool

/-- `decoder.eval()`: clears one decoder's training flag. -/
def setEvalMode (st : DecoderModes) (m : String) : DecoderModes :=
  fun k => if k = m then false else st k

/-- Mode effect of one `compute_ca_loss` call (lines 270-271). -/
def compute_ca_loss_modes (st : DecoderModes) (m1 m2 : String) : DecoderModes :=
  setEvalMode (setEvalMode st m1) m2

/-- Mode effect of one `compute_cada_losses` call: one `compute_ca_loss` per
modality pair. -/
def compute_cada_losses_modes (modalities : List String) (st : DecoderModes) :
    DecoderModes :=
  (pairs modalities).foldl (fun s p => compute_ca_loss_modes s p.1 p.2) st

/-- Decoder modes after `train_VAE` has processed `nbatches` training batches:
`model.train()` once, then one `compute_cada_losses` per batch. -/
def train_VAE_modes (modalities : List String) (nbatches : ℕ) : DecoderModes :=
  (fun st => compute_cada_losses_modes modalities st)^[nbatches] (fun _ => true)

/-! ## Helper lemmas -/

/-- An `Option`-valued fold whose steps all succeed computes the pure fold. -/
theorem foldlM_eq_some {α β : Type} (f : β → α → Option β) (g : β → α → β) :
    ∀ (l : List α), (∀ b a, a ∈ l → f b a = some (g b a)) →
      ∀ init, l.foldlM f init = some (l.foldl g init) := by
  intro l
  induction l with
  | nil => intro _ init; rfl
  | cons a l ih =>
    intro h init
    rw [List.foldlM_cons, h init a (List.mem_cons_self a l)]
    show l.foldlM f (g init a) = _
    rw [ih (fun b a' ha' => h b a' (List.mem_cons_of_mem _ ha')) (g init a),
      List.foldl_cons]

/-- An `Option`-valued fold fails if some list element makes the step fail
regardless of the accumulator. -/
theorem foldlM_eq_none {α β : Type} (f : β → α → Option β) (a : α)
    (hfa : ∀ b, f b a = none) :
    ∀ (l : List α), a ∈ l → ∀ init, l.foldlM f init = none := by
  intro l
  induction l with
  | nil => intro h; cases h
  | cons c rest ih =>
    intro hmem init
    rcases List.mem_cons.mp hmem with rfl | hmem'
    · rw [List.foldlM_cons, hfa init]; rfl
    · rw [List.foldlM_cons]
      cases hfc : f init c with
      | none => rfl
      | some b =>
        show rest.foldlM f b = none
        exact ih hmem' b

/-- A fold accumulating two sums componentwise computes the two sums. -/
theorem foldl_pair_add {α M N : Type} [AddCommMonoid M] [AddCommMonoid N]
    (f : α → M) (g : α → N) :
    ∀ (l : List α) (p : M) (q : N),
      l.foldl (fun acc x => (acc.1 + f x, acc.2 + g x)) (p, q)
        = (p + (l.map f).sum, q + (l.map g).sum) := by
  intro l
  induction l with
  | nil => intro p q; simp
  | cons a l ih =>
    intro p q
    rw [List.foldl_cons]
    show l.foldl _ (p + f a, q + g a) = _
    rw [ih (p + f a) (q + g a)]
    simp [add_assoc]

/-- A fold updating the two components of a pair independently splits into two
folds. -/
theorem foldl_prod_split {α β γ : Type} (f : β → α → β) (g : γ → α → γ) :
    ∀ (l : List α) (p : β) (q : γ),
      l.foldl (fun acc b => (f acc.1 b, g acc.2 b)) (p, q)
        = (l.foldl f p, l.foldl g q) := by
  intro l
  induction l with
  | nil => intro p q; rfl
  | cons a l ih =>
    intro p q
    rw [List.foldl_cons, List.foldl_cons, List.foldl_cons]
    exact ih (f p a) (g q a)

/-- A fold by concatenation starting from `p` prepends `p` to the fold from
`[]`. -/
theorem foldl_append_shift {α β : Type} (f : α → List β) :
    ∀ (l : List α) (p : List β),
      l.foldl (fun acc b => acc ++ f b) p
        = p ++ l.foldl (fun acc b => acc ++ f b) [] := by
  intro l
  induction l with
  | nil => intro p; simp
  | cons a l ih =>
    intro p
    rw [List.foldl_cons, List.foldl_cons, ih (p ++ f a), ih ([] ++ f a)]
    simp

/-- Both members of a pair produced by `pairs` are members of the list. -/
theorem mem_pairs {α : Type} : ∀ {l : List α} {p : α × α},
    p ∈ pairs l → p.1 ∈ l ∧ p.2 ∈ l := by
  intro l
  induction l with
  | nil => intro p h; cases h
  | cons a rest ih =>
    intro p h
    rw [pairs, List.mem_append] at h
    rcases h with h | h
    · obtain ⟨b, hb, rfl⟩ := List.mem_map.mp h
      exact ⟨List.mem_cons_self a rest, List.mem_cons_of_mem _ hb⟩
    · obtain ⟨h1, h2⟩ := ih h
      exact ⟨List.mem_cons_of_mem _ h1, List.mem_cons_of_mem _ h2⟩

/-- When a list has at least two elements, each of its members occurs in some
element of `pairs`. -/
theorem pairs_cover {l : List String} (h2 : 2 ≤ l.length) {m : String}
    (hm : m ∈ l) : ∃ p ∈ pairs l, p.1 = m ∨ p.2 = m := by
  match l, h2 with
  | a :: b :: rest, _ =>
    have hab : (a, b) ∈ pairs (a :: b :: rest) := by
      rw [pairs, List.mem_append]
      exact Or.inl (List.mem_map.mpr ⟨b, List.mem_cons_self b rest, rfl⟩)
    rcases List.mem_cons.mp hm with rfl | hm'
    · exact ⟨(m, b), hab, Or.inl rfl⟩
    · refine ⟨(a, m), ?_, Or.inr rfl⟩
      rw [pairs, List.mem_append]
      exact Or.inl (List.mem_map.mpr ⟨m, hm', rfl⟩)

/-- A key listed in `keys d` has a successful lookup. -/
theorem lookup_isSome_of_mem_keys {α : Type} {d : List (String × α)}
    {m : String} (h : m ∈ keys d) : ∃ v, List.lookup m d = some v := by
  induction d with
  | nil => simp [keys] at h
  | cons p rest ih =>
    obtain ⟨k, v⟩ := p
    by_cases hm : m = k
    · subst hm; exact ⟨v, by simp [List.lookup]⟩
    · have hmem : m ∈ keys rest := by
        rcases List.mem_cons.mp h with h' | h'
        · exact absurd h' hm
        · exact h'
      obtain ⟨w, hw⟩ := ih hmem
      have hbeq : (m == k) = false := beq_eq_false_iff_ne.mpr hm
      exact ⟨w, by simp [List.lookup, hbeq, hw]⟩

/-- Lookup of a present tensor key returns exactly `getT`. -/
theorem getT_lookup {d : List (String × Tensor)} {m : String}
    (h : m ∈ keys d) : List.lookup m d = some (getT d m) := by
  obtain ⟨v, hv⟩ := lookup_isSome_of_mem_keys h
  rw [getT, hv]; rfl

/-- Lookup of a present decoder key returns exactly `getDec`. -/
theorem getDec_lookup {d : List (String × (Tensor → Tensor))} {m : String}
    (h : m ∈ keys d) : List.lookup m d = some (getDec d m) := by
  obtain ⟨v, hv⟩ := lookup_isSome_of_mem_keys h
  rw [getDec, hv]; rfl

/-- On a recognised selector, `reconstruction_loss` returns `reconValue`. -/
theorem reconstruction_loss_eq (x y : Tensor) {norm : String}
    (h : norm = "l1" ∨ norm = "l2") :
    reconstruction_loss x y norm = some (reconValue norm x y) := by
  rcases h with rfl | rfl <;> simp [reconstruction_loss, reconValue]

/-- On a recognised selector, `compute_ca_loss` returns the sum of the two
cross-decoded reconstruction losses. -/
theorem compute_ca_loss_eq (d1 d2 : Tensor → Tensor) (x1 x2 z1 z2 : Tensor)
    {norm : String} (h : norm = "l1" ∨ norm = "l2") :
    compute_ca_loss d1 d2 x1 x2 z1 z2 norm
      = some (reconValue norm x1 (d1 z2) + reconValue norm x2 (d2 z1)) := by
  rw [compute_ca_loss, reconstruction_loss_eq _ _ h, reconstruction_loss_eq _ _ h]
  rfl

/-- Every element of `zipWith f as bs` is `f a b` for members `a`, `b`. -/
theorem mem_zipWith {α β γ : Type} {f : α → β → γ} :
    ∀ {as : List α} {bs : List β} {c : γ},
      c ∈ List.zipWith f as bs → ∃ a ∈ as, ∃ b ∈ bs, c = f a b := by
  intro as
  induction as with
  | nil => intro bs c h; simp at h
  | cons a as ih =>
    intro bs c h
    cases bs with
    | nil => simp at h
    | cons b bs =>
      rw [List.zipWith_cons_cons] at h
      rcases List.mem_cons.mp h with rfl | h'
      · exact ⟨a, List.mem_cons_self a as, b, List.mem_cons_self b bs, rfl⟩
      · obtain ⟨a', ha', b', hb', rfl⟩ := ih h'
        exact ⟨a', List.mem_cons_of_mem _ ha', b', List.mem_cons_of_mem _ hb', rfl⟩

/-- The mean of a list all of whose members are `0` is `0`. -/
theorem tmean_eq_zero {l : List ℝ} (h : ∀ v ∈ l, v = 0) : tmean l = 0 := by
  rw [tmean, List.sum_eq_zero h, zero_div]

/-- Elementwise symmetry lifts to `tmap2`. -/
theorem tmap2_comm {f : ℝ → ℝ → ℝ} (hf : ∀ a b, f a b = f b a)
    (t1 t2 : Tensor) : tmap2 f t1 t2 = tmap2 f t2 t1 :=
  List.zipWith_comm_of_comm _ (fun r1 r2 => List.zipWith_comm_of_comm f hf r1 r2) t1 t2

/-- The KL summand vanishes on all-zero mean and log-variance tensors. -/
theorem kldTerm_eq_zero {mu lv : Tensor} (hmu : allZero mu) (hlv : allZero lv) :
    kldTerm mu lv = 0 := by
  rw [kldTerm, tmean_eq_zero, mul_zero]
  intro s hs
  rw [rowSums] at hs
  obtain ⟨r, hr, rfl⟩ := List.mem_map.mp hs
  refine List.sum_eq_zero ?_
  intro v hv
  rw [tmap2] at hr
  obtain ⟨rm, hrm, rl, hrl, rfl⟩ := mem_zipWith hr
  obtain ⟨a, ha, b, hb, rfl⟩ := mem_zipWith hv
  rw [hmu rm hrm a ha, hlv rl hrl b hb]
  simp [Real.exp_zero]

/-- Zipping a list with itself applies the diagonal of the function. -/
theorem zipWith_self_eq_map {α β : Type} (f : α → α → β) :
    ∀ l : List α, List.zipWith f l l = l.map (fun a => f a a) := by
  intro l
  induction l with
  | nil => rfl
  | cons a l ih => rw [List.zipWith_cons_cons, ih, List.map_cons]

/-- Row sums of a diagonal elementwise map vanish when the diagonal does. -/
theorem rowSums_tmap2_self_zero {f : ℝ → ℝ → ℝ} (hf : ∀ a, f a a = 0)
    (t : Tensor) : ∀ v ∈ rowSums (tmap2 f t t), v = 0 := by
  intro v hv
  rw [rowSums, tmap2, zipWith_self_eq_map] at hv
  rw [List.map_map] at hv
  obtain ⟨r, _, rfl⟩ := List.mem_map.mp hv
  show (List.zipWith f r r).sum = 0
  rw [zipWith_self_eq_map]
  refine List.sum_eq_zero ?_
  intro u hu
  obtain ⟨a, _, rfl⟩ := List.mem_map.mp hu
  exact hf a

/-- The distribution-alignment loss of a modality with itself is `0`. -/
theorem compute_da_loss_self (mu lv : Tensor) :
    compute_da_loss mu lv mu lv = 0 := by
  rw [compute_da_loss]
  refine tmean_eq_zero ?_
  intro v hv
  obtain ⟨a, ha, b, hb, rfl⟩ := mem_zipWith hv
  rw [rowSums_tmap2_self_zero (fun c => by ring) mu a ha,
    rowSums_tmap2_self_zero (fun c => by ring) lv b hb, add_zero, Real.sqrt_zero]

/-! ## Warm-up ramp lemmas -/

/-- The interpolation branch of `rampFactor` is reachable only when
`START_EPOCH ≤ e < END_EPOCH`, which forces a nonzero denominator: the
division can never fail. -/
theorem rampFactor_isSome (e : ℤ) (r : Ramp) : (rampFactor e r).isSome := by
  rw [rampFactor]
  by_cases h1 : e < r.START_EPOCH
  · simp [h1]
  · by_cases h2 : e ≥ r.END_EPOCH
    · simp [h1, h2]
    · have hd : ¬ r.END_EPOCH - r.START_EPOCH = 0 := by omega
      simp [h1, h2, hd]

/-- `loss_factors` never fails, whatever the ramp specification. -/
theorem loss_factors_isSome (e : ℤ) (w : Warmup) :
    (loss_factors e w).isSome := by
  rw [loss_factors]
  obtain ⟨b, hb⟩ := Option.isSome_iff_exists.mp (rampFactor_isSome e w.BETA)
  obtain ⟨c, hc⟩ := Option.isSome_iff_exists.mp
    (rampFactor_isSome e w.CROSS_RECONSTRUCTION)
  obtain ⟨d, hd⟩ := Option.isSome_iff_exists.mp (rampFactor_isSome e w.DISTANCE)
  rw [hb, hc, hd]
  rfl

/-- On a well-formed ramp, `rampFactor` returns the closed-form value. -/
theorem rampFactor_eq_rampValue (e : ℤ) (r : Ramp)
    (h : r.START_EPOCH < r.END_EPOCH) :
    rampFactor e r = some (rampValue e r) := by
  rw [rampFactor, rampValue]
  by_cases h1 : e < r.START_EPOCH
  · simp [h1]
  · by_cases h2 : r.END_EPOCH ≤ e
    · simp [h1, h2, ge_iff_le]
    · have hd : ¬ r.END_EPOCH - r.START_EPOCH = 0 := by omega
      have h2' : ¬ e ≥ r.END_EPOCH := h2
      simp only [if_neg h1, if_neg h2', if_neg hd, if_neg h2]
      rw [mul_comm]

theorem rampValue_of_lt (e : ℤ) (r : Ramp) (h : e < r.START_EPOCH) :
    rampValue e r = 0 := by
  rw [rampValue, if_pos h]

theorem rampValue_of_ge (e : ℤ) (r : Ramp) (hr : r.START_EPOCH < r.END_EPOCH)
    (h : r.END_EPOCH ≤ e) : rampValue e r = r.FACTOR := by
  have h1 : ¬ e < r.START_EPOCH := by omega
  rw [rampValue, if_neg h1, if_pos h]

theorem rampValue_of_mid (e : ℤ) (r : Ramp) (hs : r.START_EPOCH ≤ e)
    (he : e < r.END_EPOCH) :
    rampValue e r = r.FACTOR * (((e - r.START_EPOCH : ℤ) : ℚ)
      / ((r.END_EPOCH - r.START_EPOCH : ℤ) : ℚ)) := by
  have h1 : ¬ e < r.START_EPOCH := by omega
  have h2 : ¬ r.END_EPOCH ≤ e := by omega
  rw [rampValue, if_neg h1, if_neg h2]

/-- For a nonnegative target the ramp value is nonnegative. -/
theorem rampValue_nonneg {e : ℤ} {r : Ramp} (hr : r.START_EPOCH < r.END_EPOCH)
    (hF : 0 ≤ r.FACTOR) : 0 ≤ rampValue e r := by
  by_cases h1 : e < r.START_EPOCH
  · rw [rampValue_of_lt e r h1]
  · by_cases h2 : r.END_EPOCH ≤ e
    · rw [rampValue_of_ge e r hr h2]; exact hF
    · rw [rampValue_of_mid e r (by omega) (by omega)]
      refine mul_nonneg hF (div_nonneg ?_ ?_)
      · exact_mod_cast Int.sub_nonneg.mpr (by omega)
      · exact_mod_cast Int.sub_nonneg.mpr (by omega)

/-- For a nonnegative target the ramp value never exceeds the target. -/
theorem rampValue_le_factor {e : ℤ} {r : Ramp}
    (hr : r.START_EPOCH < r.END_EPOCH) (hF : 0 ≤ r.FACTOR) :
    rampValue e r ≤ r.FACTOR := by
  by_cases h1 : e < r.START_EPOCH
  · rw [rampValue_of_lt e r h1]; exact hF
  · by_cases h2 : r.END_EPOCH ≤ e
    · rw [rampValue_of_ge e r hr h2]
    · rw [rampValue_of_mid e r (by omega) (by omega)]
      refine mul_le_of_le_one_right hF ?_
      rw [div_le_one (by exact_mod_cast (by omega : (0 : ℤ) < r.END_EPOCH - r.START_EPOCH))]
      exact_mod_cast (by omega : e - r.START_EPOCH ≤ r.END_EPOCH - r.START_EPOCH)

/-- For a nonnegative target the ramp value is monotone in the epoch. -/
theorem rampValue_mono {e e' : ℤ} {r : Ramp}
    (hr : r.START_EPOCH < r.END_EPOCH) (hF : 0 ≤ r.FACTOR) (hee' : e ≤ e') :
    rampValue e r ≤ rampValue e' r := by
  by_cases h1' : e' < r.START_EPOCH
  · rw [rampValue_of_lt e' r h1', rampValue_of_lt e r (by omega)]
  · by_cases h2' : r.END_EPOCH ≤ e'
    · rw [rampValue_of_ge e' r hr h2']
      exact rampValue_le_factor hr hF
    · rw [rampValue_of_mid e' r (by omega) (by omega)]
      by_cases h1 : e < r.START_EPOCH
      · rw [rampValue_of_lt e r h1]
        refine mul_nonneg hF (div_nonneg ?_ ?_)
        · exact_mod_cast Int.sub_nonneg.mpr (by omega)
        · exact_mod_cast Int.sub_nonneg.mpr (by omega)
      · rw [rampValue_of_mid e r (by omega) (by omega)]
        refine mul_le_mul_of_nonneg_left ?_ hF
        have hdpos : (0 : ℚ) < ((r.END_EPOCH - r.START_EPOCH : ℤ) : ℚ) := by
          exact_mod_cast (by omega : (0 : ℤ) < r.END_EPOCH - r.START_EPOCH)
        rw [div_le_div_iff_of_pos_right hdpos]
        exact_mod_cast (by omega : e - r.START_EPOCH ≤ e' - r.START_EPOCH)

/-- All the spec's claims about one well-formed ramp hold. -/
theorem rampProps_holds (e e' : ℤ) (r : Ramp)
    (h : r.START_EPOCH < r.END_EPOCH) : rampProps e e' r := by
  refine ⟨fun h1 => rampValue_of_lt e r h1, fun h2 => rampValue_of_ge e r h h2,
    fun hs he => rampValue_of_mid e r hs he, fun hF => ⟨rampValue_nonneg h hF,
      rampValue_le_factor h hF, fun hee' => rampValue_mono h hF hee'⟩⟩

/-! ## `eval_VAE` decomposition -/

/-- `eval_VAE` splits into an embedding fold and a label fold. -/
theorem eval_VAE_components (encoder : String → Tensor → Tensor × Tensor × Tensor)
    (l : List (Tensor × List ℤ)) (m : String) (noise : Bool) :
    eval_VAE encoder l m noise
      = (l.foldl (fun acc b =>
           acc ++ (if noise then (encoder m b.1).2.2 else (encoder m b.1).1)) [],
         l.foldl (fun acc b => acc ++ b.2) []) := by
  rw [eval_VAE,
    foldl_prod_split
      (fun t b => t ++ (if noise then (encoder m b.1).2.2 else (encoder m b.1).1))
      (fun q (b : Tensor × List ℤ) => q ++ b.2) l [] []]

/-- With noise, `eval_VAE` concatenates the `z_noize` components. -/
theorem eval_VAE_fst_true (encoder : String → Tensor → Tensor × Tensor × Tensor)
    (l : List (Tensor × List ℤ)) (m : String) :
    (eval_VAE encoder l m true).1 = concatNoize encoder m l := by
  rw [eval_VAE_components]
  rfl

/-- Without noise, `eval_VAE` concatenates the `z_mu` components. -/
theorem eval_VAE_fst_false (encoder : String → Tensor → Tensor × Tensor × Tensor)
    (l : List (Tensor × List ℤ)) (m : String) :
    (eval_VAE encoder l m false).1 = concatMu encoder m l := by
  rw [eval_VAE_components]
  rfl

/-! ## Decoder-mode lemmas -/

/-- One `compute_ca_loss` call clears the flags of the two decoders it was
given. -/
theorem compute_ca_loss_modes_hit {st : DecoderModes} {m m1 m2 : String}
    (h : m1 = m ∨ m2 = m) : compute_ca_loss_modes st m1 m2 m = false := by
  show (if m = m2 then false else if m = m1 then false else st m) = false
  rcases h with rfl | rfl
  · by_cases h2 : m1 = m2 <;> simp [h2]
  · simp

/-- `compute_ca_loss` never restores a cleared training flag. -/
theorem compute_ca_loss_modes_persist {st : DecoderModes} {m : String}
    (h : st m = false) (m1 m2 : String) :
    compute_ca_loss_modes st m1 m2 m = false := by
  show (if m = m2 then false else if m = m1 then false else st m) = false
  by_cases h2 : m = m2 <;> by_cases h1 : m = m1 <;> simp [h1, h2, h]

/-- After folding the pair list, a modality hit by some pair — or already in
evaluation mode — is in evaluation mode. -/
theorem foldl_modes_false {m : String} :
    ∀ (ps : List (String × String)) (st : DecoderModes),
      ((∃ p ∈ ps, p.1 = m ∨ p.2 = m) ∨ st m = false) →
      (ps.foldl (fun s p => compute_ca_loss_modes s p.1 p.2) st) m = false := by
  intro ps
  induction ps with
  | nil =>
    intro st h
    rcases h with ⟨p, hp, _⟩ | h
    · cases hp
    · exact h
  | cons q rest ih =>
    intro st h
    rw [List.foldl_cons]
    apply ih
    rcases h with ⟨p, hp, hpm⟩ | hst
    · rcases List.mem_cons.mp hp with rfl | hp'
      · exact Or.inr (compute_ca_loss_modes_hit hpm)
      · exact Or.inl ⟨p, hp', hpm⟩
    · exact Or.inr (compute_ca_loss_modes_persist hst q.1 q.2)

/-- With at least two modalities, one `compute_cada_losses` call puts every
modality's decoder in evaluation mode. -/
theorem compute_cada_losses_modes_false {mods : List String}
    (h2 : 2 ≤ mods.length) (st : DecoderModes) {m : String} (hm : m ∈ mods) :
    compute_cada_losses_modes mods st m = false := by
  rw [compute_cada_losses_modes]
  exact foldl_modes_false (pairs mods) st (Or.inl (pairs_cover h2 hm))

/-- `compute_cada_losses` never restores a cleared training flag. -/
theorem compute_cada_losses_modes_persist {mods : List String}
    {st : DecoderModes} {m : String} (h : st m = false) :
    compute_cada_losses_modes mods st m = false := by
  rw [compute_cada_losses_modes]
  exact foldl_modes_false (pairs mods) st (Or.inr h)

/-- Iterating batches preserves evaluation mode. -/
theorem iterate_modes_persist {mods : List String} {m : String} :
    ∀ (k : ℕ) (st : DecoderModes), st m = false →
      ((fun s => compute_cada_losses_modes mods s)^[k] st) m = false := by
  intro k
  induction k with
  | zero => intro st h; exact h
  | succ k ih =>
    intro st h
    rw [Function.iterate_succ_apply]
    exact ih _ (compute_cada_losses_modes_persist h)

/-! ## Claim theorems -/

/-- Claim C3 (amended): for every epoch and every ramp specification with
`end_epoch > start_epoch`, each of the three factors returned by
`loss_factors` equals the piecewise closed form — `0` before `start_epoch`,
`target_factor` at or after `end_epoch`, and
`target_factor * (e - start) / (end - start)` in between — and, provided the
target factor is nonnegative, lies in `[0, target_factor]` and is
non-decreasing in the epoch. -/
theorem C3_loss_factors_piecewise (e e' : ℤ) (w : Warmup)
    (hB : w.BETA.START_EPOCH < w.BETA.END_EPOCH)
    (hC : w.CROSS_RECONSTRUCTION.START_EPOCH < w.CROSS_RECONSTRUCTION.END_EPOCH)
    (hD : w.DISTANCE.START_EPOCH < w.DISTANCE.END_EPOCH) :
    loss_factors e w = some (rampValue e w.BETA,
        rampValue e w.CROSS_RECONSTRUCTION, rampValue e w.DISTANCE)
    ∧ rampProps e e' w.BETA ∧ rampProps e e' w.CROSS_RECONSTRUCTION
    ∧ rampProps e e' w.DISTANCE := by
  refine ⟨?_, rampProps_holds e e' _ hB, rampProps_holds e e' _ hC,
    rampProps_holds e e' _ hD⟩
  rw [loss_factors, rampFactor_eq_rampValue e _ hB, rampFactor_eq_rampValue e _ hC,
    rampFactor_eq_rampValue e _ hD]
  rfl

/-- Claim C3, counterexample: with a negative target factor `-1` and ramp
`(0, 2)`, the epoch-1 factor is `-1/2`, which does not lie in `[0, -1]`:
the bounds clause of the claim fails without a nonnegativity assumption. -/
theorem C3_counterexample :
    loss_factors 1 ⟨⟨0, 2, -1⟩, ⟨0, 2, -1⟩, ⟨0, 2, -1⟩⟩
      = some (-(1 / 2 : ℚ), -(1 / 2 : ℚ), -(1 / 2 : ℚ))
    ∧ ¬ ((0 : ℚ) ≤ -(1 / 2) ∧ -(1 / 2 : ℚ) ≤ -1) := by
  constructor
  · rw [loss_factors]
    norm_num [rampFactor]
  · norm_num

/-- Claim C3, witness at epochs `1 ≤ 2` and three concrete ramps. -/
theorem C3_witness :
    ((0 : ℤ) < 2 ∧ (0 : ℤ) < 4 ∧ (1 : ℤ) < 3)
    ∧ (loss_factors 1 ⟨⟨0, 2, 1⟩, ⟨0, 4, 2⟩, ⟨1, 3, 5⟩⟩
        = some (rampValue 1 ⟨0, 2, 1⟩, rampValue 1 ⟨0, 4, 2⟩, rampValue 1 ⟨1, 3, 5⟩)
       ∧ rampProps 1 2 ⟨0, 2, 1⟩ ∧ rampProps 1 2 ⟨0, 4, 2⟩ ∧ rampProps 1 2 ⟨1, 3, 5⟩) :=
  ⟨⟨by decide, by decide, by decide⟩,
   C3_loss_factors_piecewise 1 2 ⟨⟨0, 2, 1⟩, ⟨0, 4, 2⟩, ⟨1, 3, 5⟩⟩
     (by decide) (by decide) (by decide)⟩

/-- Claim C4: the distribution-alignment loss is symmetric in its two
modality arguments, and is `0` when both modalities share identical `μ` and
`logσ²`. -/
theorem C4_da_loss_symm_zero (mu1 lv1 mu2 lv2 : Tensor)
    (hmu : sameShape mu1 mu2) (hlv : sameShape lv1 lv2) :
    compute_da_loss mu1 lv1 mu2 lv2 = compute_da_loss mu2 lv2 mu1 lv1
    ∧ (mu1 = mu2 → lv1 = lv2 → compute_da_loss mu1 lv1 mu2 lv2 = 0) := by
  constructor
  · rw [compute_da_loss, compute_da_loss,
      tmap2_comm (fun a b => by ring) mu2 mu1,
      tmap2_comm (fun a b => by ring) lv2 lv1]
  · rintro rfl rfl
    exact compute_da_loss_self mu1 lv1

/-- Claim C4, witness at concrete one-row tensors. -/
theorem C4_witness :
    sameShape [[(1 : ℝ)]] [[(2 : ℝ)]] ∧ sameShape [[(0 : ℝ)]] [[(0 : ℝ)]]
    ∧ (compute_da_loss [[(1 : ℝ)]] [[(0 : ℝ)]] [[(2 : ℝ)]] [[(0 : ℝ)]]
        = compute_da_loss [[(2 : ℝ)]] [[(0 : ℝ)]] [[(1 : ℝ)]] [[(0 : ℝ)]]
       ∧ ([[(1 : ℝ)]] = ([[(2 : ℝ)]] : Tensor) → [[(0 : ℝ)]] = ([[(0 : ℝ)]] : Tensor)
          → compute_da_loss [[(1 : ℝ)]] [[(0 : ℝ)]] [[(2 : ℝ)]] [[(0 : ℝ)]] = 0)) :=
  ⟨rfl, rfl, C4_da_loss_symm_zero [[1]] [[0]] [[2]] [[0]] rfl rfl⟩

/-- Claim C5: `reconstruction_loss` yields no value (the run aborts) on any
selector other than `"l1"` and `"l2"`; on `"l1"` it returns the summed
absolute error divided by the batch size, on `"l2"` the summed squared error
divided by the batch size. -/
theorem C5_reconstruction_loss (norm : String) (x x_recon : Tensor) :
    (norm ≠ "l1" → norm ≠ "l2" → reconstruction_loss x x_recon norm = none)
    ∧ reconstruction_loss x x_recon "l1"
        = some (tensorSum (tmap2 (fun a b => |a - b|) x x_recon) / x.length)
    ∧ reconstruction_loss x x_recon "l2"
        = some (tensorSum (tmap2 (fun a b => (a - b) ^ 2) x x_recon) / x.length) := by
  refine ⟨fun h1 h2 => ?_, ?_, ?_⟩
  · rw [reconstruction_loss, if_neg h1, if_neg h2]
  · rw [reconstruction_loss, if_pos rfl]
  · rw [reconstruction_loss, if_neg (by decide), if_pos rfl]

/-- Claim C5, witness at the unrecognized selector `"l3"`. -/
theorem C5_witness :
    reconstruction_loss [[(1 : ℝ)]] [[(0 : ℝ)]] "l3" = none
    ∧ reconstruction_loss [[(1 : ℝ)]] [[(0 : ℝ)]] "l1"
        = some (tensorSum (tmap2 (fun a b => |a - b|) [[(1 : ℝ)]] [[(0 : ℝ)]])
            / ([[(1 : ℝ)]] : Tensor).length) :=
  ⟨(C5_reconstruction_loss "l3" [[1]] [[0]]).1 (by decide) (by decide),
   (C5_reconstruction_loss "l3" [[1]] [[0]]).2.1⟩

/-- Claim C6 (amended): `loss_factors` never fails with a division-by-zero
error, even when `end_epoch == start_epoch`: the interpolation branch is
guarded by `e < end_epoch` and `¬(e < start_epoch)`, so it is reached only
when `start_epoch < end_epoch`. -/
theorem C6_no_division_failure (e : ℤ) (w : Warmup) :
    (loss_factors e w).isSome = true :=
  loss_factors_isSome e w

/-- Claim C6, counterexample: there is no ramp specification with
`end_epoch == start_epoch` and no epoch on which `loss_factors` fails. -/
theorem C6_counterexample :
    ¬ ∃ (w : Warmup) (e : ℤ), w.BETA.END_EPOCH = w.BETA.START_EPOCH
        ∧ loss_factors e w = none := by
  rintro ⟨w, e, -, hn⟩
  have h := loss_factors_isSome e w
  rw [hn] at h
  simp at h

/-- Claim C10: with at least two modalities, after the first training batch's
loss computation every modality's decoder is in evaluation mode, and it stays
there for every subsequent batch of the run — `train_VAE` sets training mode
only once, before the epoch loop, and `compute_ca_loss` clears it on every
pair. -/
theorem C10_decoders_stay_eval (mods : List String) (h2 : 2 ≤ mods.length)
    (nbatches : ℕ) (h1 : 1 ≤ nbatches) (m : String) (hm : m ∈ mods) :
    train_VAE_modes mods nbatches m = false := by
  obtain ⟨k, rfl⟩ : ∃ k, nbatches = k + 1 := ⟨nbatches - 1, by omega⟩
  rw [train_VAE_modes, Function.iterate_succ_apply]
  exact iterate_modes_persist k _ (compute_cada_losses_modes_false h2 _ hm)

/-- Claim C10, witness: the two CADA-VAE modalities, after one batch. -/
theorem C10_witness :
    2 ≤ (["IMG", "CLS_ATTR"] : List String).length ∧ 1 ≤ 1
    ∧ "IMG" ∈ (["IMG", "CLS_ATTR"] : List String)
    ∧ train_VAE_modes ["IMG", "CLS_ATTR"] 1 "IMG" = false :=
  ⟨by decide, le_refl 1, by decide,
   C10_decoders_stay_eval ["IMG", "CLS_ATTR"] (by decide) 1 (le_refl 1) "IMG"
     (by decide)⟩

/-- Claim C1 (amended): if some modality key of `z_mu` is missing from `x`,
`x_recon` or `z_logvar`, `compute_cada_losses` aborts with a key error
(`none`); but — as the counterexample records — a modality present in the
other dictionaries and absent from `z_mu` is silently skipped, because both
loops run over `z_mu.keys()` only, so unequal key sets do not always abort. -/
theorem C1_missing_modality_aborts
    (decoder : List (String × (Tensor → Tensor)))
    (x x_recon z_mu z_logvar z_noize : List (String × Tensor))
    (beta : ℝ) (norm : String)
    (h : ∃ m ∈ keys z_mu, List.lookup m x = none ∨ List.lookup m x_recon = none
        ∨ List.lookup m z_logvar = none) :
    compute_cada_losses decoder x x_recon z_mu z_logvar z_noize beta norm = none := by
  obtain ⟨m, hm, hcase⟩ := h
  have hstep : ∀ b : ℝ × ℝ, vaeStep x x_recon z_mu z_logvar norm b m = none := by
    intro b
    rcases hcase with h1 | h2 | h3
    · simp [vaeStep, h1]
    · cases hx : List.lookup m x with
      | none => simp [vaeStep, hx]
      | some xv => simp [vaeStep, hx, h2]
    · cases hx : List.lookup m x with
      | none => simp [vaeStep, hx]
      | some xv =>
        cases hxr : List.lookup m x_recon with
        | none => simp [vaeStep, hx, hxr]
        | some xrv =>
          cases hr : reconstruction_loss xv xrv norm with
          | none => simp [vaeStep, hx, hxr, hr]
          | some rv => simp [vaeStep, hx, hxr, hr, getT_lookup hm, h3]
  rw [compute_cada_losses,
    foldlM_eq_none (vaeStep x x_recon z_mu z_logvar norm) m hstep (keys z_mu) hm
      ((0 : ℝ), (0 : ℝ))]
  rfl

/-- Claim C1, counterexample: `z_noize` is empty while the other four
dictionaries hold modality `"A"`, so the five key sets are not all equal —
yet `compute_cada_losses` succeeds rather than aborting: the loops iterate
over `z_mu.keys()` only and silently ignore the discrepancy. -/
theorem C1_counterexample :
    keys ([] : List (String × Tensor)) ≠ keys [("A", ([[0]] : Tensor))]
    ∧ (compute_cada_losses [] [("A", [[0]])] [("A", [[0]])] [("A", [[0]])]
        [("A", [[0]])] [] 1 "l1").isSome = true := by
  constructor
  · simp [keys]
  · rfl

/-- Claim C1, witness: modality `"A"` present in `z_mu` but missing from `x`
makes the computation abort. -/
theorem C1_witness :
    ("A" ∈ keys [("A", ([[0]] : Tensor))]
      ∧ List.lookup "A" ([] : List (String × Tensor)) = none)
    ∧ compute_cada_losses [] [] [] [("A", ([[0]] : Tensor))] [] [] 1 "l1" = none :=
  ⟨⟨by simp [keys], rfl⟩,
   C1_missing_modality_aborts [] [] [] [("A", [[0]])] [] [] 1 "l1"
     ⟨"A", by simp [keys], Or.inl rfl⟩⟩

/-- Claim C2: whenever the per-modality dictionaries cover `z_mu`'s keys and
the norm selector is valid, `compute_cada_losses` succeeds and its `loss_vae`
component equals the summed per-modality reconstruction loss minus `beta`
times the summed per-modality KL terms (each KL term being
`0.5 * sum_dims(1 + logvar - mu^2 - exp logvar)` averaged over the batch
rows); the KL sum is `0` when every modality's `μ` and `logσ²` are all-zero
nonempty tensors of equal shape. -/
theorem C2_loss_vae
    (decoder : List (String × (Tensor → Tensor)))
    (x x_recon z_mu z_logvar z_noize : List (String × Tensor))
    (beta : ℝ) (norm : String)
    (hx : ∀ m ∈ keys z_mu, m ∈ keys x)
    (hxr : ∀ m ∈ keys z_mu, m ∈ keys x_recon)
    (hlv : ∀ m ∈ keys z_mu, m ∈ keys z_logvar)
    (hz : ∀ m ∈ keys z_mu, m ∈ keys z_noize)
    (hdec : ∀ m ∈ keys z_mu, m ∈ keys decoder)
    (hnorm : norm = "l1" ∨ norm = "l2") :
    compute_cada_losses decoder x x_recon z_mu z_logvar z_noize beta norm
      = some
        (((keys z_mu).map (fun m => reconValue norm (getT x m) (getT x_recon m))).sum
           - beta * ((keys z_mu).map
              (fun m => kldTerm (getT z_mu m) (getT z_logvar m))).sum,
         ((pairs (keys z_mu)).map (caValue decoder x z_noize norm)).sum,
         ((pairs (keys z_mu)).map (daValue z_mu z_logvar)).sum)
    ∧ ((∀ m ∈ keys z_mu, getT z_mu m ≠ [] ∧ sameShape (getT z_mu m) (getT z_logvar m)
          ∧ allZero (getT z_mu m) ∧ allZero (getT z_logvar m)) →
        ((keys z_mu).map (fun m => kldTerm (getT z_mu m) (getT z_logvar m))).sum = 0) := by
  have hrl : ∀ a b : Tensor, reconstruction_loss a b norm = some (reconValue norm a b) :=
    fun a b => reconstruction_loss_eq a b hnorm
  constructor
  · have h1 : (keys z_mu).foldlM (vaeStep x x_recon z_mu z_logvar norm)
        ((0 : ℝ), (0 : ℝ))
        = some ((keys z_mu).foldl
            (fun acc m => (acc.1 + reconValue norm (getT x m) (getT x_recon m),
              acc.2 + kldTerm (getT z_mu m) (getT z_logvar m))) ((0 : ℝ), (0 : ℝ))) := by
      apply foldlM_eq_some
      intro b m hm
      simp only [vaeStep, getT_lookup (hx m hm), getT_lookup (hxr m hm),
        getT_lookup hm, getT_lookup (hlv m hm), hrl, Option.pure_def,
        Option.bind_eq_bind, Option.some_bind]
    have h2 : (pairs (keys z_mu)).foldlM
        (pairStep decoder x z_mu z_logvar z_noize norm) ((0 : ℝ), (0 : ℝ))
        = some ((pairs (keys z_mu)).foldl
            (fun acc p => (acc.1 + daValue z_mu z_logvar p,
              acc.2 + caValue decoder x z_noize norm p)) ((0 : ℝ), (0 : ℝ))) := by
      apply foldlM_eq_some
      intro b p hp
      obtain ⟨hp1, hp2⟩ := mem_pairs hp
      have hca := compute_ca_loss_eq (getDec decoder p.1) (getDec decoder p.2)
        (getT x p.1) (getT x p.2) (getT z_noize p.1) (getT z_noize p.2) hnorm
      simp only [pairStep, getT_lookup hp1, getT_lookup hp2,
        getT_lookup (hlv p.1 hp1), getT_lookup (hlv p.2 hp2),
        getDec_lookup (hdec p.1 hp1), getDec_lookup (hdec p.2 hp2),
        getT_lookup (hx p.1 hp1), getT_lookup (hx p.2 hp2),
        getT_lookup (hz p.1 hp1), getT_lookup (hz p.2 hp2), hca,
        Option.pure_def, Option.bind_eq_bind, Option.some_bind, daValue, caValue]
    rw [compute_cada_losses, h1, h2]
    simp only [Option.some_bind,
      foldl_pair_add (fun m => reconValue norm (getT x m) (getT x_recon m))
        (fun m => kldTerm (getT z_mu m) (getT z_logvar m)) (keys z_mu) 0 0,
      foldl_pair_add (daValue z_mu z_logvar) (caValue decoder x z_noize norm)
        (pairs (keys z_mu)) 0 0, zero_add]
    rfl
  · intro hz0
    refine List.sum_eq_zero ?_
    intro v hv
    obtain ⟨m, hm, rfl⟩ := List.mem_map.mp hv
    obtain ⟨-, -, hmz, hlz⟩ := hz0 m hm
    exact kldTerm_eq_zero hmz hlz

/-- Claim C2, witness: one modality `"A"` with a single all-zero row. -/
theorem C2_witness :
    compute_cada_losses [("A", fun t => t)] [("A", [[(0 : ℝ)]])] [("A", [[(0 : ℝ)]])]
        [("A", [[(0 : ℝ)]])] [("A", [[(0 : ℝ)]])] [("A", [[(0 : ℝ)]])] 1 "l1"
      = some
        (((keys [("A", ([[(0 : ℝ)]] : Tensor))]).map
            (fun m => reconValue "l1" (getT [("A", [[(0 : ℝ)]])] m)
              (getT [("A", [[(0 : ℝ)]])] m))).sum
           - 1 * ((keys [("A", ([[(0 : ℝ)]] : Tensor))]).map
              (fun m => kldTerm (getT [("A", [[(0 : ℝ)]])] m)
                (getT [("A", [[(0 : ℝ)]])] m))).sum,
         ((pairs (keys [("A", ([[(0 : ℝ)]] : Tensor))])).map
            (caValue [("A", fun t => t)] [("A", [[(0 : ℝ)]])]
              [("A", [[(0 : ℝ)]])] "l1")).sum,
         ((pairs (keys [("A", ([[(0 : ℝ)]] : Tensor))])).map
            (daValue [("A", [[(0 : ℝ)]])] [("A", [[(0 : ℝ)]])])).sum)
    ∧ ((∀ m ∈ keys [("A", ([[(0 : ℝ)]] : Tensor))],
          getT [("A", [[(0 : ℝ)]])] m ≠ []
          ∧ sameShape (getT [("A", [[(0 : ℝ)]])] m) (getT [("A", [[(0 : ℝ)]])] m)
          ∧ allZero (getT [("A", [[(0 : ℝ)]])] m)
          ∧ allZero (getT [("A", [[(0 : ℝ)]])] m)) →
        ((keys [("A", ([[(0 : ℝ)]] : Tensor))]).map
          (fun m => kldTerm (getT [("A", [[(0 : ℝ)]])] m)
            (getT [("A", [[(0 : ℝ)]])] m))).sum = 0) :=
  C2_loss_vae [("A", fun t => t)] [("A", [[0]])] [("A", [[0]])] [("A", [[0]])]
    [("A", [[0]])] [("A", [[0]])] 1 "l1"
    (fun _ hm => hm) (fun _ hm => hm) (fun _ hm => hm) (fun _ hm => hm)
    (fun _ hm => hm) (Or.inl rfl)

/-- Claim C7: with `generalized = False` the embedding generation *always*
aborts before remapping: line 407 reads `dataset.unseen_classes`, but the
local `dataset` is bound only inside the `if cfg.GENERALIZED` branch
(line 386), so the non-generalized path raises `UnboundLocalError` on every
input. -/
theorem C7_nongeneralized_crashes
    (encoder : String → Tensor → Tensor × Tensor × Tensor)
    (ds_trainval ds_test_unseen ds_test : EmbDataset) :
    generate_synthetic_dataset false encoder ds_trainval ds_test_unseen ds_test
      = none := by
  rfl

/-- Claim C8: whenever `generate_synthetic_dataset` returns, the train and
test index ranges partition the rows: concatenated they are exactly
`range total_rows` (so they are contiguous, disjoint, and the train range
precedes the test range), their lengths sum to the row count, and the test
range covers exactly the test-split rows. -/
theorem C8_index_invariant (g : Bool)
    (encoder : String → Tensor → Tensor × Tensor × Tensor)
    (d1 d2 d3 : EmbDataset) (emb : Tensor) (labels : List ℤ) (tr te : List ℕ)
    (h : generate_synthetic_dataset g encoder d1 d2 d3 = some (emb, labels, tr, te)) :
    tr ++ te = List.range labels.length
    ∧ tr.length + te.length = labels.length
    ∧ labels.length = emb.length
    ∧ te.length = (eval_VAE encoder d3.batches "IMG" false).2.length := by
  cases g with
  | false =>
    have hnone : generate_synthetic_dataset false encoder d1 d2 d3 = none := rfl
    rw [hnone] at h
    simp at h
  | true =>
    have h' :
        (if ((eval_VAE encoder d1.batches "IMG" true).1
              ++ (eval_VAE encoder d2.batches "CLS_ATTR" true).1
              ++ (eval_VAE encoder d3.batches "IMG" false).1).length
            = ((eval_VAE encoder d1.batches "IMG" true).2
              ++ (eval_VAE encoder d2.batches "CLS_ATTR" true).2
              ++ (eval_VAE encoder d3.batches "IMG" false).2).length
         then some ((eval_VAE encoder d1.batches "IMG" true).1
              ++ (eval_VAE encoder d2.batches "CLS_ATTR" true).1
              ++ (eval_VAE encoder d3.batches "IMG" false).1,
            (eval_VAE encoder d1.batches "IMG" true).2
              ++ (eval_VAE encoder d2.batches "CLS_ATTR" true).2
              ++ (eval_VAE encoder d3.batches "IMG" false).2,
            List.range ((eval_VAE encoder d1.batches "IMG" true).2.length
              + (eval_VAE encoder d2.batches "CLS_ATTR" true).2.length),
            List.range' ((eval_VAE encoder d1.batches "IMG" true).2.length
              + (eval_VAE encoder d2.batches "CLS_ATTR" true).2.length)
              (eval_VAE encoder d3.batches "IMG" false).2.length)
         else none) = some (emb, labels, tr, te) := h
    by_cases hlen :
        ((eval_VAE encoder d1.batches "IMG" true).1
          ++ (eval_VAE encoder d2.batches "CLS_ATTR" true).1
          ++ (eval_VAE encoder d3.batches "IMG" false).1).length
        = ((eval_VAE encoder d1.batches "IMG" true).2
          ++ (eval_VAE encoder d2.batches "CLS_ATTR" true).2
          ++ (eval_VAE encoder d3.batches "IMG" false).2).length
    · rw [if_pos hlen, Option.some_inj] at h'
      simp only [Prod.mk.injEq] at h'
      obtain ⟨h1, h2, h3, h4⟩ := h'
      subst h1
      subst h2
      subst h3
      subst h4
      refine ⟨?_, ?_, ?_, ?_⟩
      · have hr := List.range'_append 0
          ((eval_VAE encoder d1.batches "IMG" true).2.length
            + (eval_VAE encoder d2.batches "CLS_ATTR" true).2.length)
          (eval_VAE encoder d3.batches "IMG" false).2.length 1
        simp only [zero_add, one_mul] at hr
        rw [List.range_eq_range', hr, List.range_eq_range']
        congr 1
        simp only [List.length_append]
        omega
      · simp only [List.length_range, List.length_range', List.length_append]
      · exact hlen.symm
      · simp only [List.length_range']
    · rw [if_neg hlen] at h'
      exact Option.noConfusion h'

/-- Claim C8, witness: a concrete generalized run with one batch per split. -/
theorem C8_witness :
    generate_synthetic_dataset true (fun _ t => (t, t, t))
        ⟨[([[(1 : ℝ)]], [5])], []⟩ ⟨[([[(2 : ℝ)]], [7])], [7]⟩
        ⟨[([[(3 : ℝ)]], [9])], []⟩
      = some ([[(1 : ℝ)], [(2 : ℝ)], [(3 : ℝ)]], [5, 7, 9],
          List.range 2, List.range' 2 1)
    ∧ (List.range 2 ++ List.range' 2 1 = List.range ([5, 7, 9] : List ℤ).length
       ∧ (List.range 2).length + (List.range' 2 1).length
          = ([5, 7, 9] : List ℤ).length
       ∧ ([5, 7, 9] : List ℤ).length
          = ([[(1 : ℝ)], [(2 : ℝ)], [(3 : ℝ)]] : Tensor).length
       ∧ (List.range' 2 1).length
          = (eval_VAE (fun _ t => (t, t, t)) [([[(3 : ℝ)]], [9])] "IMG"
              false).2.length) :=
  ⟨rfl, C8_index_invariant true (fun _ t => (t, t, t)) ⟨[([[1]], [5])], []⟩
    ⟨[([[2]], [7])], [7]⟩ ⟨[([[3]], [9])], []⟩ [[1], [2], [3]] [5, 7, 9]
    (List.range 2) (List.range' 2 1) rfl⟩

/-- Claim C9: whenever `generate_synthetic_dataset` returns, the embedding
tensor is exactly the noisy-sample (`z_noize`) encodings of the seen-train
split, then the noisy-sample encodings of the unseen-attribute split, then —
for the test split only — the deterministic latent-mean (`z_mu`) encodings. -/
theorem C9_test_split_uses_mean (g : Bool)
    (encoder : String → Tensor → Tensor × Tensor × Tensor)
    (d1 d2 d3 : EmbDataset) (emb : Tensor) (labels : List ℤ) (tr te : List ℕ)
    (h : generate_synthetic_dataset g encoder d1 d2 d3 = some (emb, labels, tr, te)) :
    emb = concatNoize encoder "IMG" d1.batches
          ++ concatNoize encoder "CLS_ATTR" d2.batches
          ++ concatMu encoder "IMG" d3.batches := by
  cases g with
  | false =>
    have hnone : generate_synthetic_dataset false encoder d1 d2 d3 = none := rfl
    rw [hnone] at h
    simp at h
  | true =>
    have h' :
        (if ((eval_VAE encoder d1.batches "IMG" true).1
              ++ (eval_VAE encoder d2.batches "CLS_ATTR" true).1
              ++ (eval_VAE encoder d3.batches "IMG" false).1).length
            = ((eval_VAE encoder d1.batches "IMG" true).2
              ++ (eval_VAE encoder d2.batches "CLS_ATTR" true).2
              ++ (eval_VAE encoder d3.batches "IMG" false).2).length
         then some ((eval_VAE encoder d1.batches "IMG" true).1
              ++ (eval_VAE encoder d2.batches "CLS_ATTR" true).1
              ++ (eval_VAE encoder d3.batches "IMG" false).1,
            (eval_VAE encoder d1.batches "IMG" true).2
              ++ (eval_VAE encoder d2.batches "CLS_ATTR" true).2
              ++ (eval_VAE encoder d3.batches "IMG" false).2,
            List.range ((eval_VAE encoder d1.batches "IMG" true).2.length
              + (eval_VAE encoder d2.batches "CLS_ATTR" true).2.length),
            List.range' ((eval_VAE encoder d1.batches "IMG" true).2.length
              + (eval_VAE encoder d2.batches "CLS_ATTR" true).2.length)
              (eval_VAE encoder d3.batches "IMG" false).2.length)
         else none) = some (emb, labels, tr, te) := h
    by_cases hlen :
        ((eval_VAE encoder d1.batches "IMG" true).1
          ++ (eval_VAE encoder d2.batches "CLS_ATTR" true).1
          ++ (eval_VAE encoder d3.batches "IMG" false).1).length
        = ((eval_VAE encoder d1.batches "IMG" true).2
          ++ (eval_VAE encoder d2.batches "CLS_ATTR" true).2
          ++ (eval_VAE encoder d3.batches "IMG" false).2).length
    · rw [if_pos hlen, Option.some_inj] at h'
      simp only [Prod.mk.injEq] at h'
      obtain ⟨h1, -, -, -⟩ := h'
      subst h1
      rw [eval_VAE_fst_true, eval_VAE_fst_true, eval_VAE_fst_false]
    · rw [if_neg hlen] at h'
      exact Option.noConfusion h'

/-- Claim C9, witness: a concrete generalized run whose encoder returns
distinct mean and noisy-sample tensors would distinguish the two; here the
identity triple exhibits the decomposition. -/
theorem C9_witness :
    generate_synthetic_dataset true (fun _ t => (t, t, t))
        ⟨[([[(1 : ℝ)]], [5])], []⟩ ⟨[([[(2 : ℝ)]], [7])], [7]⟩
        ⟨[([[(3 : ℝ)]], [9])], []⟩
      = some ([[(1 : ℝ)], [(2 : ℝ)], [(3 : ℝ)]], [5, 7, 9],
          List.range 2, List.range' 2 1)
    ∧ [[(1 : ℝ)], [(2 : ℝ)], [(3 : ℝ)]]
        = concatNoize (fun _ t => (t, t, t)) "IMG" [([[(1 : ℝ)]], [5])]
          ++ concatNoize (fun _ t => (t, t, t)) "CLS_ATTR" [([[(2 : ℝ)]], [7])]
          ++ concatMu (fun _ t => (t, t, t)) "IMG" [([[(3 : ℝ)]], [9])] :=
  ⟨rfl, C9_test_split_uses_mean true (fun _ t => (t, t, t)) ⟨[([[1]], [5])], []⟩
    ⟨[([[2]], [7])], [7]⟩ ⟨[([[3]], [9])], []⟩ [[1], [2], [3]] [5, 7, 9]
    (List.range 2) (List.range' 2 1) rfl⟩

end CadaVae
